import Mathlib

/-!
# Verification of the analysis orchestration engine

A shallow embedding, in Lean 4, of the core of the `jiraMicroLabAutomation`
repository: the content-fingerprint tracker (`src/jira_client.py`,
`JiraIssue.content_hash`), the revision-chain bookkeeping
(`backend/api/issues/service.py`, `AnalysisService.save_feedback`), the
rubric score aggregation (`src/rubric.py`,
`RubricEvaluator.calculate_final_score`), the batch-job loop
(`backend/api/issues/router.py`, `run_batch_analysis`), the WebSocket
fan-out layer (`backend/api/websocket/manager.py`, `ConnectionManager`
and the `emit_*` helpers), and the SQLite idempotency cache
(`src/cache.py`, `FeedbackCache`).

Python integers and the SHA-256 word arithmetic are modelled with `Nat`
(reduced `% 2^32` where the algorithm requires 32-bit wraparound); scores
and weights (Python floats holding small decimals) are modelled with `ℚ`;
nullable state (the SQLite connection) with `Option`.
-/

set_option maxRecDepth 100000

namespace JiraLab

/-! ## SHA-256

`JiraIssue.content_hash` computes `hashlib.sha256(content.encode()).hexdigest()`.
The functions below implement FIPS 180-4 SHA-256 over a list of bytes
(naturals below 256), producing the lowercase hex digest, exactly as
`hashlib` does. All word arithmetic is `Nat` arithmetic reduced `% 2^32`.
-/

/-- The SHA-256 word modulus `2^32`. -/
def w32 : Nat := 4294967296

/-- Rotate a 32-bit word right by `n`. -/
def rotr (n x : Nat) : Nat := ((x >>> n) ||| (x <<< (32 - n))) % w32

/-- Big sigma 0 of FIPS 180-4. -/
def bsig0 (x : Nat) : Nat := (rotr 2 x) ^^^ (rotr 13 x) ^^^ (rotr 22 x)

/-- Big sigma 1 of FIPS 180-4. -/
def bsig1 (x : Nat) : Nat := (rotr 6 x) ^^^ (rotr 11 x) ^^^ (rotr 25 x)

/-- Small sigma 0 of FIPS 180-4. -/
def ssig0 (x : Nat) : Nat := (rotr 7 x) ^^^ (rotr 18 x) ^^^ (x >>> 3)

/-- Small sigma 1 of FIPS 180-4. -/
def ssig1 (x : Nat) : Nat := (rotr 17 x) ^^^ (rotr 19 x) ^^^ (x >>> 10)

/-- The choice function `Ch(x,y,z)`; the complement is a 32-bit xor mask. -/
def ch (x y z : Nat) : Nat := (x &&& y) ^^^ ((x ^^^ 4294967295) &&& z)

/-- The majority function `Maj(x,y,z)`. -/
def maj (x y z : Nat) : Nat := (x &&& y) ^^^ (x &&& z) ^^^ (y &&& z)

/-- The 64 SHA-256 round constants. -/
def K256 : List Nat :=
  [1116352408, 1899447441, 3049323471, 3921009573, 961987163,
   1508970993, 2453635748, 2870763221, 3624381080, 310598401,
   607225278, 1426881987, 1925078388, 2162078206, 2614888103,
   3248222580, 3835390401, 4022224774, 264347078, 604807628,
   770255983, 1249150122, 1555081692, 1996064986, 2554220882,
   2821834349, 2952996808, 3210313671, 3336571891, 3584528711,
   113926993, 338241895, 666307205, 773529912, 1294757372,
   1396182291, 1695183700, 1986661051, 2177026350, 2456956037,
   2730485921, 2820302411, 3259730800, 3345764771, 3516065817,
   3600352804, 4094571909, 275423344, 430227734, 506948616,
   659060556, 883997877, 958139571, 1322822218, 1537002063,
   1747873779, 1955562222, 2024104815, 2227730452, 2361852424,
   2428436474, 2756734187, 3204031479, 3329325298]

/-- The initial SHA-256 hash state. -/
def H0 : List Nat :=
  [1779033703, 3144134277, 1013904242, 2773480762,
   1359893119, 2600822924, 528734635, 1541459225]

/-- Pad a byte message: append `0x80`, zeros to 56 mod 64, then the bit
length as 8 big-endian bytes. -/
def padMessage (msg : List Nat) : List Nat :=
  let L := msg.length
  let z := (119 - L % 64) % 64
  msg ++ [0x80] ++ List.replicate z 0 ++
    (List.range 8).map (fun i => ((8 * L) >>> (56 - 8 * i)) % 256)

/-- Group bytes into big-endian 32-bit words. -/
def bytesToWords : List Nat → List Nat
  | a :: b :: c :: d :: rest =>
      (a * 16777216 + b * 65536 + c * 256 + d) :: bytesToWords rest
  | _ => []

/-- Extend a 16-word block to the 64-word message schedule. -/
def extendW (block : List Nat) : List Nat :=
  (List.range 48).foldl
    (fun acc _ =>
      let n := acc.length
      acc ++ [(ssig1 (acc.getD (n - 2) 0) + acc.getD (n - 7) 0 +
               ssig0 (acc.getD (n - 15) 0) + acc.getD (n - 16) 0) % w32])
    block

/-- One SHA-256 compression round on the state `[a,b,c,d,e,f,g,h]`. -/
def compressRound (W : List Nat) (t : Nat) (s : List Nat) : List Nat :=
  match s with
  | [a, b, c, d, e, f, g, h] =>
      let T1 := (h + bsig1 e + ch e f g + K256.getD t 0 + W.getD t 0) % w32
      let T2 := (bsig0 a + maj a b c) % w32
      [(T1 + T2) % w32, a, b, c, (d + T1) % w32, e, f, g]
  | _ => s

/-- Compress one 16-word block into the running hash state. -/
def compressBlock (H block : List Nat) : List Nat :=
  let W := extendW block
  let s := (List.range 64).foldl (fun s t => compressRound W t s) H
  List.zipWith (fun h x => (h + x) % w32) H s

/-- Group a word list into 16-word blocks (a padded message always splits
evenly; a ragged tail is dropped). -/
def chunkWords : List Nat → List (List Nat)
  | w0 :: w1 :: w2 :: w3 :: w4 :: w5 :: w6 :: w7 ::
    w8 :: w9 :: w10 :: w11 :: w12 :: w13 :: w14 :: w15 :: rest =>
      [w0, w1, w2, w3, w4, w5, w6, w7, w8, w9, w10, w11, w12, w13, w14, w15] ::
        chunkWords rest
  | _ => []

/-- Fold the compression function over the padded message, one 64-byte
block at a time. -/
def processBlocks (H : List Nat) (bytes : List Nat) : List Nat :=
  (chunkWords (bytesToWords bytes)).foldl compressBlock H

/-- One lowercase hex digit. -/
def hexChar (n : Nat) : Char :=
  if n < 10 then Char.ofNat (48 + n) else Char.ofNat (87 + n)

/-- A 32-bit word as 8 lowercase hex digits. -/
def wordHex (w : Nat) : List Char :=
  (List.range 8).map (fun i => hexChar ((w >>> (28 - 4 * i)) % 16))

/-- SHA-256 lowercase hex digest of a byte list, as
`hashlib.sha256(bytes).hexdigest()` returns it. -/
def sha256hex (msg : List Nat) : String :=
  String.mk (((processBlocks H0 (padMessage msg)).map wordHex).flatten)

/-- UTF-8 encoding of one code point. -/
def encodeCharUtf8 (c : Nat) : List Nat :=
  if c < 0x80 then [c]
  else if c < 0x800 then
    [0xC0 ||| (c >>> 6), 0x80 ||| (c &&& 0x3F)]
  else if c < 0x10000 then
    [0xE0 ||| (c >>> 12), 0x80 ||| ((c >>> 6) &&& 0x3F), 0x80 ||| (c &&& 0x3F)]
  else
    [0xF0 ||| (c >>> 18), 0x80 ||| ((c >>> 12) &&& 0x3F),
     0x80 ||| ((c >>> 6) &&& 0x3F), 0x80 ||| (c &&& 0x3F)]

/-- UTF-8 encoding of a string, as Python's `str.encode()` produces it. -/
def utf8Encode (s : String) : List Nat :=
  s.data.foldr (fun c acc => encodeCharUtf8 c.toNat ++ acc) []

/-- FIPS 180-4 test vector: the digest of `"abc"`. -/
theorem sha256_abc :
    sha256hex (utf8Encode "abc") =
      "ba7816bf8f01cfea414140de5dae2223b00361a396177a9cb410ff61f20015ad" := by
  decide

/-! ## `JiraIssue` and the content fingerprint (`src/jira_client.py`)

The `JiraIssue` fields below are the values of the corresponding Python
properties (`summary`, `description`, `labels`, `estimate`) that
`content_hash` reads; the raw-payload extraction and length truncation
performed inside those properties happens upstream of the hash and is not
re-modelled. `estimate` is `Optional[float]` in the source, holding a
story-point number; it is modelled as `Option ℚ`.
-/

structure JiraIssue where
  key : String
  summary : String
  description : String
  labels : List String
  estimate : Option ℚ
deriving DecidableEq

/-- Python's `",".join(labels)`. -/
def joinComma : List String → String
  | [] => ""
  | [s] => s
  | s :: rest => s ++ "," ++ joinComma rest

/-- The f-string interpolation of the optional estimate: `str(None)` is
`"None"`; a number renders as its decimal text. Python's float `repr` is
abstracted by the rational's canonical string, which is injective on `ℚ`;
every fingerprint fact proved here factors through equality or
disequality of whole content strings. -/
def estimateRepr : Option ℚ → String
  | none => "None"
  | some q => toString q

/-- The delimited content string
`f"{self.summary}|{self.description}|{','.join(self.labels)}|{self.estimate}"`. -/
def contentString (i : JiraIssue) : String :=
  i.summary ++ "|" ++ i.description ++ "|" ++ joinComma i.labels ++ "|" ++
    estimateRepr i.estimate

/-- The fingerprint `JiraIssue.content_hash`:
`hashlib.sha256(content.encode()).hexdigest()`. -/
def content_hash (i : JiraIssue) : String :=
  sha256hex (utf8Encode (contentString i))

/-! ## `FeedbackCache` (`src/cache.py`)

One SQLite row per `issue_key` (the primary key) holding
`(last_hash, last_commented_at, comment_count)`; the table is modelled as
an association list in insertion order, and the nullable connection as
`Option`. `mark_commented` takes the `datetime.utcnow().isoformat()`
timestamp as an explicit argument. Every operation is a total function:
a closed (`conn is None`) cache can never raise.
-/

structure CacheRow where
  last_hash : String
  last_commented_at : String
  comment_count : Nat
deriving DecidableEq

structure FeedbackCache where
  conn : Option (List (String × CacheRow))
deriving DecidableEq

namespace FeedbackCache

/-- The query `FeedbackCache.should_comment`: `True` when the cache is closed, the
issue was never commented on, or the stored hash differs. -/
def should_comment (cache : FeedbackCache) (issue_key content_hash : String) :
    Bool :=
  match cache.conn with
  | none => true
  | some rows =>
    match rows.lookup issue_key with
    | none => true
    | some row => row.last_hash != content_hash

/-- The writer `FeedbackCache.mark_commented`: insert a fresh row with count 1, or
update the existing row's hash, timestamp and incremented count. A closed
cache is left untouched. -/
def mark_commented (cache : FeedbackCache) (issue_key content_hash now : String) :
    FeedbackCache :=
  match cache.conn with
  | none => cache
  | some rows =>
    match rows.lookup issue_key with
    | none => ⟨some (rows ++ [(issue_key, ⟨content_hash, now, 1⟩)])⟩
    | some row =>
        ⟨some (rows.map (fun r =>
          if r.1 = issue_key then (r.1, ⟨content_hash, now, row.comment_count + 1⟩)
          else r))⟩

/-- Closing the cache (`FeedbackCache.close`) drops the connection. -/
def close (_cache : FeedbackCache) : FeedbackCache :=
  ⟨none⟩

end FeedbackCache

/-! ## Rubric score aggregation (`src/rubric.py`) -/

structure RubricResult where
  rule_id : String
  score : ℚ
  message : String
  suggestion : String
  weight : ℚ
deriving DecidableEq

/-- Python's `round(x, 1)`: one decimal digit, ties to even. -/
def round1 (x : ℚ) : ℚ :=
  let y := x * 10
  ((if Int.fract y = 1 / 2 then (if 2 ∣ ⌊y⌋ then ⌊y⌋ else ⌊y⌋ + 1)
    else round y : ℤ) : ℚ) / 10

/-- One entry of the per-rule breakdown dict. -/
structure BreakdownEntry where
  score : ℚ
  message : String
  suggestion : String
deriving DecidableEq

/-- The local `total_weight = sum(r.weight for r in results)`. -/
def totalWeight (results : List RubricResult) : ℚ :=
  (results.map (fun r => r.weight)).sum

/-- The local `weighted_sum = sum(r.score * r.weight for r in results)`. -/
def weightedSum (results : List RubricResult) : ℚ :=
  (results.map (fun r => r.score * r.weight)).sum

/-- The aggregation `RubricEvaluator.calculate_final_score`. The breakdown dict
comprehension, keyed by `rule_id` in evaluation order, is modelled as the
association list in that order (`evaluate` produces distinct rule ids). -/
def calculate_final_score (results : List RubricResult) :
    ℚ × List (String × BreakdownEntry) :=
  if results.isEmpty then (0, [])
  else
    let final_score :=
      if totalWeight results > 0 then
        (weightedSum results / totalWeight results) * 100
      else 0
    (round1 final_score,
     results.map (fun r =>
       (r.rule_id, ⟨round1 (r.score * 100), r.message, r.suggestion⟩)))

/-! ## Theorems for the fingerprint, the cache and the score aggregation -/

/-- C2, counterexample. The claim asserts the fingerprint is
order-independent for labels and that items differing in any hashed
field hash differently; both parts fail on the code. Two issues that are
equal except for a transposition of their two labels get different
digests, because `content_hash` joins the labels in list order; and two
issues differing in both summary and description get the same digest,
because the `|`-delimited concatenation is ambiguous. -/
theorem content_hash_label_order_counterexample :
    content_hash ⟨"T-1", "a", "b", ["x", "y"], none⟩ ≠
        content_hash ⟨"T-1", "a", "b", ["y", "x"], none⟩ ∧
      content_hash ⟨"T-1", "a|b", "c", [], none⟩ =
        content_hash ⟨"T-1", "a", "b|c", [], none⟩ := by
  constructor
  · decide
  · rfl

/-- C2, amended: the fingerprint is a deterministic digest of the
scoring-relevant fields read in their stored order — any two issues
agreeing on summary, description, the labels list (in order) and
estimate get the same digest, regardless of their issue key. -/
theorem content_hash_deterministic (i j : JiraIssue)
    (hs : i.summary = j.summary) (hd : i.description = j.description)
    (hl : i.labels = j.labels) (he : i.estimate = j.estimate) :
    content_hash i = content_hash j := by
  cases i
  cases j
  simp only at hs hd hl he
  simp [content_hash, contentString, hs, hd, hl, he]

/-- C2, witness for the amended theorem: two issues differing only in
their key share a fingerprint. -/
theorem content_hash_deterministic_witness :
    content_hash ⟨"T-1", "a", "b", ["x"], none⟩ =
      content_hash ⟨"T-2", "a", "b", ["x"], none⟩ :=
  content_hash_deterministic ⟨"T-1", "a", "b", ["x"], none⟩
    ⟨"T-2", "a", "b", ["x"], none⟩ rfl rfl rfl rfl

/-- C10: the idempotency cache fails open once closed. After `close`
nulls the connection, `should_comment` answers `True` for every pair and
`mark_commented` leaves the cache unchanged; both are total functions, so
neither can raise on a closed cache. -/
theorem closed_cache_fails_open (cache : FeedbackCache)
    (issue_key content_hash now : String) :
    FeedbackCache.should_comment (FeedbackCache.close cache) issue_key
        content_hash = true ∧
      FeedbackCache.mark_commented (FeedbackCache.close cache) issue_key
        content_hash now = FeedbackCache.close cache := by
  exact ⟨rfl, rfl⟩

/-- C4: score aggregation. With a positive weight sum the final score is
`100 × (Σ scoreᵢ·weightᵢ) / (Σ weightᵢ)` rounded to one decimal; with a
zero weight sum (in particular when every rule's weight is 0) the score
is 0; and the empty finding list yields score 0 with an empty
breakdown. -/
theorem calculate_final_score_spec (results : List RubricResult) :
    (0 < totalWeight results →
      (calculate_final_score results).1 =
        round1 (100 * weightedSum results / totalWeight results)) ∧
    (totalWeight results = 0 → (calculate_final_score results).1 = 0) ∧
    ((∀ r ∈ results, r.weight = 0) → (calculate_final_score results).1 = 0) ∧
    calculate_final_score ([] : List RubricResult) = (0, []) := by
  have hzero : totalWeight results = 0 → (calculate_final_score results).1 = 0 := by
    intro h
    unfold calculate_final_score
    rcases results with _ | ⟨r, rs⟩
    · simp
    · simp only [List.isEmpty_cons, if_neg]
      simp [h, round1]
  refine ⟨?_, hzero, ?_, by simp [calculate_final_score]⟩
  · intro hpos
    rcases results with _ | ⟨r, rs⟩
    · exfalso
      simp [totalWeight] at hpos
    · simp only [calculate_final_score, List.isEmpty_cons, Bool.false_eq_true,
        if_false]
      rw [if_pos hpos]
      congr 1
      ring
  · intro hall
    apply hzero
    unfold totalWeight
    apply List.sum_eq_zero
    intro x hx
    rcases List.mem_map.mp hx with ⟨r, hr, rfl⟩
    exact hall r hr

/-- C4, witness: a single finding of score `1/2` and weight `2` scores
`50.0`; a single finding whose rule weight is `0` scores `0`; the empty
finding list scores `0` with an empty breakdown. -/
theorem calculate_final_score_spec_witness :
    (calculate_final_score [⟨"description_length", 1/2, "", "", 2⟩]).1 = 50 ∧
      (calculate_final_score [⟨"labels", 1, "", "", 0⟩]).1 = 0 ∧
      calculate_final_score ([] : List RubricResult) = (0, []) := by
  refine ⟨?_, ?_, (calculate_final_score_spec []).2.2.2⟩
  · have h := (calculate_final_score_spec [⟨"description_length", 1/2, "", "", 2⟩]).1
      (by norm_num [totalWeight])
    rw [h]
    norm_num [weightedSum, totalWeight, round1]
  · exact (calculate_final_score_spec [⟨"labels", 1, "", "", 0⟩]).2.2.1
      (by intro r hr; simp at hr; rw [hr])

/-! ## Revision tracking (`backend/api/issues/service.py`, `save_feedback`)

`FeedbackHistory` rows are kept in creation order (the autoincrement `id`
is the row's position, `created_at` descending order is list order
reversed); the fields `save_feedback` never reads are elided. The
`AnalysisService` is constructed for one `user_id`, passed here as an
argument; the predecessor query filters on both `user_id` and
`issue_key` and takes the most recent row. -/

structure FeedbackHistory where
  id : Nat
  user_id : Nat
  issue_key : String
  content_hash : String
  score : ℚ
  previous_feedback_id : Option Nat
  revision_number : Nat
  is_passing : Bool
deriving DecidableEq

/-- Default row for positional lookups. -/
def dummyHistory : FeedbackHistory :=
  ⟨0, 0, "", "", 0, none, 0, false⟩

/-- The rows of one user's feedback on one issue, in creation order. -/
def historyFor (store : List FeedbackHistory) (user : Nat) (key : String) :
    List FeedbackHistory :=
  store.filter (fun h => h.user_id == user && h.issue_key == key)

/-- The `.order_by(FeedbackHistory.created_at.desc()).first()` query: the
most recent prior record for this user and issue. -/
def latestFor (store : List FeedbackHistory) (user : Nat) (key : String) :
    Option FeedbackHistory :=
  (historyFor store user key).getLast?

/-- The "Determine revision info" block of `save_feedback`: the
`(revision_number, previous_feedback_id)` pair computed from the most
recent prior record. -/
def revisionInfo (previous_feedback : Option FeedbackHistory) (hash : String) :
    Nat × Option Nat :=
  match previous_feedback with
  | none => (1, none)
  | some prev =>
      if prev.content_hash != hash then (prev.revision_number + 1, some prev.id)
      else (prev.revision_number, some prev.id)

/-- The service method `AnalysisService.save_feedback`: revision bookkeeping and the new row
appended to the store. Returns the created row and the updated store. -/
def save_feedback (store : List FeedbackHistory) (user : Nat)
    (key hash : String) (score : ℚ) : FeedbackHistory × List FeedbackHistory :=
  let rp := revisionInfo (latestFor store user key) hash
  let history : FeedbackHistory :=
    { id := store.length + 1, user_id := user, issue_key := key,
      content_hash := hash, score := score, previous_feedback_id := rp.2,
      revision_number := rp.1, is_passing := decide (70 ≤ score) }
  (history, store ++ [history])

/-- One call to `save_feedback`: which user saved what. -/
structure SaveOp where
  user : Nat
  key : String
  hash : String
  score : ℚ

/-- Replay a sequence of `save_feedback` calls from a given store. -/
def runSavesFrom (store : List FeedbackHistory) (ops : List SaveOp) :
    List FeedbackHistory :=
  ops.foldl (fun st op => (save_feedback st op.user op.key op.hash op.score).2) store

/-- Replay a sequence of `save_feedback` calls from the empty store. -/
def runSaves (ops : List SaveOp) : List FeedbackHistory :=
  runSavesFrom [] ops

/-- The revision-chain shape: each record points to its predecessor. -/
def chainOK (recs : List FeedbackHistory) : Prop :=
  ∀ i : Nat, i + 1 < recs.length →
    (recs.getD (i + 1) dummyHistory).previous_feedback_id =
      some ((recs.getD i dummyHistory).id)

/-- In every branch, `save_feedback` sets `previous_feedback_id` to the id
of the most recent prior record (or leaves it null). -/
theorem save_feedback_prev_id (store : List FeedbackHistory) (user : Nat)
    (key hash : String) (score : ℚ) :
    (save_feedback store user key hash score).1.previous_feedback_id =
      (latestFor store user key).map (fun r => r.id) := by
  show (revisionInfo (latestFor store user key) hash).2 = _
  rcases latestFor store user key with _ | prev
  · rfl
  · show (if (prev.content_hash != hash) = true
        then (prev.revision_number + 1, some prev.id)
        else (prev.revision_number, some prev.id)).2 =
      Option.map (fun r => r.id) (some prev)
    split <;> rfl

/-- Appending a record that points at the last element preserves the chain
shape. -/
theorem chainOK_append (l : List FeedbackHistory) (r : FeedbackHistory)
    (hc : chainOK l)
    (hr : r.previous_feedback_id = l.getLast?.map (fun x => x.id)) :
    chainOK (l ++ [r]) := by
  intro i hi
  simp only [List.length_append, List.length_cons, List.length_nil] at hi
  by_cases h : i + 1 < l.length
  · rw [List.getD_append _ _ _ _ h, List.getD_append _ _ _ _ (by omega)]
    exact hc i h
  · have hi1 : i + 1 = l.length := by omega
    have hlen : i < l.length := by omega
    have hne : l ≠ [] := by
      intro hnil
      rw [hnil] at hlen
      exact absurd hlen (by simp)
    rw [List.getD_append_right _ _ _ _ (by omega), hi1]
    simp only [Nat.sub_self, List.getD_cons_zero]
    rw [List.getD_append _ _ _ _ hlen]
    rw [hr, List.getLast?_eq_getElem? l, List.getElem?_eq_getElem (by omega)]
    simp only [Option.map_some', Option.some.injEq]
    rw [List.getD_eq_getElem _ _ hlen]
    congr 2
    omega

/-- The record `save_feedback` appends matches its own user and key and
no other. -/
theorem save_feedback_filter (store : List FeedbackHistory) (op : SaveOp)
    (user : Nat) (key : String) :
    historyFor (save_feedback store op.user op.key op.hash op.score).2 user key =
      historyFor store user key ++
        (if op.user = user ∧ op.key = key
         then [(save_feedback store op.user op.key op.hash op.score).1] else []) := by
  unfold historyFor
  rw [show (save_feedback store op.user op.key op.hash op.score).2 =
        store ++ [(save_feedback store op.user op.key op.hash op.score).1] from rfl]
  rw [List.filter_append]
  congr 1
  have huser : (save_feedback store op.user op.key op.hash op.score).1.user_id =
      op.user := rfl
  have hkey : (save_feedback store op.user op.key op.hash op.score).1.issue_key =
      op.key := rfl
  by_cases h : op.user = user ∧ op.key = key
  · obtain ⟨h1, h2⟩ := h
    subst h1
    subst h2
    simp [List.filter_cons, huser, hkey]
  · rw [if_neg h]
    simp only [List.filter_cons, List.filter_nil, huser, hkey]
    have hfalse : ¬ ((op.user == user && op.key == key) = true) := by
      simp only [Bool.and_eq_true, beq_iff_eq]
      exact h
    rw [if_neg hfalse]

/-- Replaying `save_feedback` calls preserves the chain shape of every
user/key slice of the store. -/
theorem runSavesFrom_chain (ops : List SaveOp) :
    ∀ store : List FeedbackHistory,
      (∀ u k, chainOK (historyFor store u k)) →
      ∀ u k, chainOK (historyFor (runSavesFrom store ops) u k) := by
  induction ops with
  | nil => intro store hinv u k; exact hinv u k
  | cons op ops ih =>
    intro store hinv u k
    refine ih _ ?_ u k
    intro u' k'
    rw [save_feedback_filter store op u' k']
    by_cases h : op.user = u' ∧ op.key = k'
    · rw [if_pos h]
      refine chainOK_append _ _ (hinv u' k') ?_
      rw [save_feedback_prev_id]
      unfold latestFor
      rw [h.1, h.2]
    · rw [if_neg h, List.append_nil]
      exact hinv u' k'

/-- C1: revision bookkeeping of `save_feedback`. With no prior record the
new row gets `revision_number = 1` and a null back-reference; with a
prior record whose fingerprint differs the revision is the predecessor's
plus exactly 1; with an identical fingerprint the revision is copied (no
bump); in both prior-record cases `previous_feedback_id` is the
predecessor's id; and replaying any call sequence from an empty store
leaves every user/key slice a chain in which record `i` (`i > 0`) points
to record `i - 1`. -/
theorem save_feedback_revision_bookkeeping :
    (∀ store user key hash score, latestFor store user key = none →
      (save_feedback store user key hash score).1.revision_number = 1 ∧
      (save_feedback store user key hash score).1.previous_feedback_id = none) ∧
    (∀ store user key hash score prev, latestFor store user key = some prev →
      prev.content_hash ≠ hash →
      (save_feedback store user key hash score).1.revision_number =
        prev.revision_number + 1 ∧
      (save_feedback store user key hash score).1.previous_feedback_id =
        some prev.id) ∧
    (∀ store user key hash score prev, latestFor store user key = some prev →
      prev.content_hash = hash →
      (save_feedback store user key hash score).1.revision_number =
        prev.revision_number ∧
      (save_feedback store user key hash score).1.previous_feedback_id =
        some prev.id) ∧
    (∀ ops user key, chainOK (historyFor (runSaves ops) user key)) := by
  refine ⟨?_, ?_, ?_, ?_⟩
  · intro store user key hash score hl
    constructor
    · show (revisionInfo (latestFor store user key) hash).1 = 1
      rw [hl]
      rfl
    · show (revisionInfo (latestFor store user key) hash).2 = none
      rw [hl]
      rfl
  · intro store user key hash score prev hl hne
    have hb : (prev.content_hash != hash) = true := by
      simpa [bne_iff_ne] using hne
    constructor
    · show (revisionInfo (latestFor store user key) hash).1 = _
      rw [hl]
      simp [revisionInfo, hb]
    · show (revisionInfo (latestFor store user key) hash).2 = _
      rw [hl]
      simp [revisionInfo, hb]
  · intro store user key hash score prev hl heq
    have hb : (prev.content_hash != hash) = false := by
      simpa [bne_eq_false_iff_eq] using heq
    constructor
    · show (revisionInfo (latestFor store user key) hash).1 = _
      rw [hl]
      simp [revisionInfo, hb]
    · show (revisionInfo (latestFor store user key) hash).2 = _
      rw [hl]
      simp [revisionInfo, hb]
  · intro ops user key
    refine runSavesFrom_chain ops [] ?_ user key
    intro u k i hi
    simp [historyFor] at hi

/-- C1, witness: the scenario `TEST-1` scored with hash `"abcd"`, re-scored
unchanged, then re-scored with hash `"efgh"`: revisions run 1, 1, 2; the
second and third records point at ids 1 and 2. -/
theorem save_feedback_revision_bookkeeping_witness :
    (save_feedback [] 1 "TEST-1" "abcd" 80).1.revision_number = 1 ∧
    (save_feedback [] 1 "TEST-1" "abcd" 80).1.previous_feedback_id = none ∧
    (save_feedback (save_feedback [] 1 "TEST-1" "abcd" 80).2
      1 "TEST-1" "abcd" 75).1.revision_number = 1 ∧
    (save_feedback (save_feedback [] 1 "TEST-1" "abcd" 80).2
      1 "TEST-1" "abcd" 75).1.previous_feedback_id = some 1 ∧
    (save_feedback (save_feedback (save_feedback [] 1 "TEST-1" "abcd" 80).2
      1 "TEST-1" "abcd" 75).2 1 "TEST-1" "efgh" 90).1.revision_number = 2 ∧
    ((historyFor (runSaves [⟨1, "TEST-1", "abcd", 80⟩, ⟨1, "TEST-1", "abcd", 75⟩,
        ⟨1, "TEST-1", "efgh", 90⟩]) 1 "TEST-1").getD 2
      dummyHistory).previous_feedback_id = some 2 := by
  refine ⟨(save_feedback_revision_bookkeeping.1 [] 1 "TEST-1" "abcd" 80 rfl).1,
    (save_feedback_revision_bookkeeping.1 [] 1 "TEST-1" "abcd" 80 rfl).2,
    (save_feedback_revision_bookkeeping.2.2.1 (save_feedback [] 1 "TEST-1" "abcd" 80).2
      1 "TEST-1" "abcd" 75 (save_feedback [] 1 "TEST-1" "abcd" 80).1 rfl rfl).1,
    (save_feedback_revision_bookkeeping.2.2.1 (save_feedback [] 1 "TEST-1" "abcd" 80).2
      1 "TEST-1" "abcd" 75 (save_feedback [] 1 "TEST-1" "abcd" 80).1 rfl rfl).2,
    (save_feedback_revision_bookkeeping.2.1
      (save_feedback (save_feedback [] 1 "TEST-1" "abcd" 80).2 1 "TEST-1" "abcd" 75).2
      1 "TEST-1" "efgh" 90 (save_feedback (save_feedback [] 1 "TEST-1" "abcd" 80).2
        1 "TEST-1" "abcd" 75).1 rfl (by decide)).1,
    save_feedback_revision_bookkeeping.2.2.2
      [⟨1, "TEST-1", "abcd", 80⟩, ⟨1, "TEST-1", "abcd", 75⟩,
       ⟨1, "TEST-1", "efgh", 90⟩] 1 "TEST-1" 1 (by decide)⟩

/-! ## The batch loop (`backend/api/issues/router.py`, `run_batch_analysis`)

The background task is modelled as a pure function of (a) the outcome of
the issue search, (b) the per-item outcome of scoring-and-recording
(`analyze_issue` + `save_feedback`, which either yield a score or raise),
and (c) the cancellation schedule: `cancelAt i` is the status value read
back by `db.refresh(job)` at the top of iteration `i` — `true` when the
cancel endpoint has set the persisted status to `"cancelled"` by then.
The job record keeps exactly the columns the loop reads or writes; the
emitted events carry the fields the claims mention. Posting to Jira, the
Telegram notification, and the lowest/highest score summary fields do not
affect the claimed behaviour and are elided.
-/

inductive JobStatus
  | pending
  | running
  | completed
  | failed
  | cancelled
deriving DecidableEq

structure AnalysisJob where
  status : JobStatus
  total_issues : Nat
  processed_issues : Nat
  failed_issues : Nat
  current_issue_key : Option String
  average_score : Option ℚ
  error_message : Option String
deriving DecidableEq

/-- A job row as `create_batch_job` inserts it. -/
def initialJob : AnalysisJob :=
  ⟨.pending, 0, 0, 0, none, none, none⟩

inductive Event
  | job_started (total : Nat)
  | issue_started (key : String)
  | issue_rubric_complete (key : String)
  | issue_complete (key : String)
  | issue_failed (key error : String)
  | job_progress (key : String) (processed total failed : Nat)
  | activity_cancelled
  | job_completed (processed failed : Nat)
  | job_failed (error : String)
deriving DecidableEq

/-- What `analyze_issue` + `save_feedback` do for one issue: produce a
score, or raise with an error message. -/
inductive ItemOutcome
  | ok (score : ℚ)
  | raises (error : String)
deriving DecidableEq

/-- Holds exactly on the raising outcome. -/
def ItemOutcome.isRaises : ItemOutcome → Bool
  | .ok _ => false
  | .raises _ => true

structure BatchItem where
  key : String
  outcome : ItemOutcome
deriving DecidableEq

/-- The loop-carried state: the job row, the `scores` accumulator, and the
events emitted so far. -/
structure LoopState where
  job : AnalysisJob
  scores : List ℚ
  events : List Event
deriving DecidableEq

/-- The `for i, issue in enumerate(issues)` loop body. At each iteration:
refresh and check for cancellation (stopping with the counters as they
stand); otherwise set `current_issue_key`, emit `issue_started`, then on
success set `processed_issues = i + 1`, append the score and emit the
rubric/complete/progress events, and on a raise increment
`failed_issues` and emit `issue_failed`, continuing either way. -/
def processItems (cancelAt : Nat → Bool) (total : Nat) :
    Nat → List BatchItem → LoopState → LoopState
  | _, [], s => s
  | i, item :: rest, s =>
    if cancelAt i then
      ⟨{ s.job with status := .cancelled }, s.scores,
        s.events ++ [.activity_cancelled]⟩
    else
      let job := { s.job with current_issue_key := some item.key }
      let evs := s.events ++ [.issue_started item.key]
      match item.outcome with
      | .ok score =>
          processItems cancelAt total (i + 1) rest
            ⟨{ job with processed_issues := i + 1 }, s.scores ++ [score],
              evs ++ [.issue_rubric_complete item.key, .issue_complete item.key,
                .job_progress item.key (i + 1) total job.failed_issues]⟩
      | .raises e =>
          processItems cancelAt total (i + 1) rest
            ⟨{ job with failed_issues := job.failed_issues + 1 }, s.scores,
              evs ++ [.issue_failed item.key e]⟩

/-- The background task `run_batch_analysis`: mark the job running; a failed search moves it
straight to `failed`; otherwise run the loop, and — unless the loop
returned through the cancellation check — finish as `completed`, clear
`current_issue_key`, fill the average and emit `job_completed`. -/
def run_batch_analysis (search : Except String (List BatchItem))
    (cancelAt : Nat → Bool) : LoopState :=
  let job := { initialJob with status := JobStatus.running }
  match search with
  | .error e =>
      ⟨{ job with
          status := .failed
          error_message := some ("Failed to search issues: " ++ e) }, [],
        [.job_failed e]⟩
  | .ok issues =>
      let s := processItems cancelAt issues.length 0 issues
        ⟨{ job with total_issues := issues.length }, [],
          [.job_started issues.length]⟩
      if s.job.status = .cancelled then s
      else
        ⟨{ s.job with
            status := .completed
            current_issue_key := none
            average_score :=
              if s.scores.isEmpty then none
              else some (s.scores.sum / (s.scores.length : ℚ)) },
          s.scores,
          s.events ++ [.job_completed s.job.processed_issues s.job.failed_issues]⟩

/-- Holds exactly on `issue_started` events. -/
def Event.isStarted : Event → Bool
  | .issue_started _ => true
  | _ => false

/-- How many `issue_started` events a trace holds. -/
def countStarted (evs : List Event) : Nat :=
  (evs.filter Event.isStarted).length

/-- Without cancellation the loop never touches the status column. -/
theorem processItems_status_no_cancel (cancelAt : Nat → Bool) (total : Nat)
    (hc : ∀ i, cancelAt i = false) :
    ∀ (items : List BatchItem) (i : Nat) (s : LoopState),
      (processItems cancelAt total i items s).job.status = s.job.status := by
  intro items
  induction items with
  | nil => intro i s; rfl
  | cons item rest ih =>
    intro i s
    simp only [processItems, hc i, Bool.false_eq_true, if_false]
    cases h : item.outcome <;> simp only [h] <;> rw [ih]

/-- Without cancellation every raise adds exactly one to `failed_issues`
and the loop runs every item, emitting one `issue_started` each. -/
theorem processItems_counts_no_cancel (cancelAt : Nat → Bool) (total : Nat)
    (hc : ∀ i, cancelAt i = false) :
    ∀ (items : List BatchItem) (i : Nat) (s : LoopState),
      (processItems cancelAt total i items s).job.failed_issues =
        s.job.failed_issues + (items.filter fun it => it.outcome.isRaises).length ∧
      countStarted (processItems cancelAt total i items s).events =
        countStarted s.events + items.length := by
  intro items
  induction items with
  | nil => intro i s; exact ⟨rfl, rfl⟩
  | cons item rest ih =>
    intro i s
    simp only [processItems, hc i, Bool.false_eq_true, if_false]
    cases h : item.outcome with
    | ok score =>
      simp only [h]
      refine ⟨((ih (i + 1) _).1.trans ?_), ((ih (i + 1) _).2.trans ?_)⟩
      · simp [List.filter_cons, ItemOutcome.isRaises, h]
      · simp [countStarted, List.filter_append, Event.isStarted]
        omega
    | raises e =>
      simp only [h]
      refine ⟨((ih (i + 1) _).1.trans ?_), ((ih (i + 1) _).2.trans ?_)⟩
      · simp [List.filter_cons, ItemOutcome.isRaises, h]
        omega
      · simp [countStarted, List.filter_append, Event.isStarted]
        omega

/-- C3: per-item failure isolation. Without cancellation the batch always
finishes `completed` (even with raises), `failed_issues` counts exactly
the raising items (each raise adds exactly 1 and the loop continues), and
every item of the batch is started. -/
theorem batch_failure_isolation (issues : List BatchItem) (cancelAt : Nat → Bool)
    (hc : ∀ i, cancelAt i = false) :
    (run_batch_analysis (.ok issues) cancelAt).job.status = .completed ∧
    (run_batch_analysis (.ok issues) cancelAt).job.failed_issues =
      (issues.filter fun it => it.outcome.isRaises).length ∧
    countStarted (run_batch_analysis (.ok issues) cancelAt).events =
      issues.length := by
  have hst := processItems_status_no_cancel cancelAt issues.length hc issues 0
    ⟨{ initialJob with
        status := JobStatus.running
        total_issues := issues.length }, [], [.job_started issues.length]⟩
  have hcnt := processItems_counts_no_cancel cancelAt issues.length hc issues 0
    ⟨{ initialJob with
        status := JobStatus.running
        total_issues := issues.length }, [], [.job_started issues.length]⟩
  simp only [run_batch_analysis]
  rw [if_neg (by rw [hst]; simp)]
  refine ⟨rfl, ?_, ?_⟩
  · simpa [initialJob] using hcnt.1
  · simpa [countStarted, Event.isStarted, List.filter_append] using hcnt.2

/-- C3, witness: a batch of three items whose second raises ends
`completed` with `processed == 3` and `failed_count == 1`, all three
items started. -/
theorem batch_failure_isolation_witness :
    (run_batch_analysis (.ok [⟨"A-1", .ok 80⟩, ⟨"A-2", .raises "boom"⟩,
        ⟨"A-3", .ok 90⟩]) (fun _ => false)).job.status = .completed ∧
    (run_batch_analysis (.ok [⟨"A-1", .ok 80⟩, ⟨"A-2", .raises "boom"⟩,
        ⟨"A-3", .ok 90⟩]) (fun _ => false)).job.processed_issues = 3 ∧
    (run_batch_analysis (.ok [⟨"A-1", .ok 80⟩, ⟨"A-2", .raises "boom"⟩,
        ⟨"A-3", .ok 90⟩]) (fun _ => false)).job.failed_issues = 1 := by
  refine ⟨(batch_failure_isolation [⟨"A-1", .ok 80⟩, ⟨"A-2", .raises "boom"⟩,
      ⟨"A-3", .ok 90⟩] (fun _ => false) (fun _ => rfl)).1, by decide,
    (batch_failure_isolation [⟨"A-1", .ok 80⟩, ⟨"A-2", .raises "boom"⟩,
      ⟨"A-3", .ok 90⟩] (fun _ => false) (fun _ => rfl)).2.1⟩

/-- Observing the cancellation flag at boundary `m` makes the run equal to
the uncancelled run of the first `m` items, with the status read back as
`cancelled` and the cancellation activity event appended — nothing else
is touched. -/
theorem processItems_cancel_split (cancelAt : Nat → Bool) (total : Nat) :
    ∀ (m : Nat) (items : List BatchItem) (i : Nat) (s : LoopState),
      m < items.length → cancelAt (i + m) = true →
      (∀ j, j < m → cancelAt (i + j) = false) →
      processItems cancelAt total i items s =
        ⟨{ (processItems (fun _ => false) total i (items.take m) s).job with
            status := .cancelled },
          (processItems (fun _ => false) total i (items.take m) s).scores,
          (processItems (fun _ => false) total i (items.take m) s).events ++
            [.activity_cancelled]⟩ := by
  intro m
  induction m with
  | zero =>
    intro items i s hlen ht _
    rcases items with _ | ⟨item, rest⟩
    · simp at hlen
    · rw [Nat.add_zero] at ht
      simp only [processItems, ht, if_true, List.take_zero]
  | succ m ih =>
    intro items i s hlen ht hf
    rcases items with _ | ⟨item, rest⟩
    · simp at hlen
    · have h0 : cancelAt i = false := by
        have := hf 0 (Nat.succ_pos m)
        simpa using this
      simp only [processItems, h0, Bool.false_eq_true, if_false,
        List.take_succ_cons]
      cases ho : item.outcome with
      | ok score =>
        simp only [ho]
        exact ih rest (i + 1) _ (by simpa using hlen)
          (by rw [show i + 1 + m = i + (m + 1) from by omega]; exact ht)
          (fun j hj => by
            rw [show i + 1 + j = i + (j + 1) from by omega]
            exact hf (j + 1) (by omega))
      | raises e =>
        simp only [ho]
        exact ih rest (i + 1) _ (by simpa using hlen)
          (by rw [show i + 1 + m = i + (m + 1) from by omega]; exact ht)
          (fun j hj => by
            rw [show i + 1 + j = i + (j + 1) from by omega]
            exact hf (j + 1) (by omega))

/-- The processed/failed counters depend only on their own starting
values, not on the `total` passed to progress events nor on the
accumulated scores and events. -/
theorem processItems_counters_only (cancelAt : Nat → Bool) :
    ∀ (items : List BatchItem) (i total total' : Nat) (s t : LoopState),
      s.job.processed_issues = t.job.processed_issues →
      s.job.failed_issues = t.job.failed_issues →
      (processItems cancelAt total i items s).job.processed_issues =
        (processItems cancelAt total' i items t).job.processed_issues ∧
      (processItems cancelAt total i items s).job.failed_issues =
        (processItems cancelAt total' i items t).job.failed_issues := by
  intro items
  induction items with
  | nil => intro i total total' s t hp hf; exact ⟨hp, hf⟩
  | cons item rest ih =>
    intro i total total' s t hp hf
    simp only [processItems]
    by_cases hci : cancelAt i = true
    · simp only [hci, if_true]
      exact ⟨hp, hf⟩
    · rw [Bool.not_eq_true] at hci
      simp only [hci, Bool.false_eq_true, if_false]
      cases ho : item.outcome with
      | ok score =>
        simp only [ho]
        exact ih (i + 1) total total' _ _ (by simp) (by simp [hf])
      | raises e =>
        simp only [ho]
        exact ih (i + 1) total total' _ _ (by simp [hp]) (by simp [hf])

/-- C5: cancellation promptness and frame. Once the flag is observed at
item boundary `m`, the job ends `cancelled`, exactly the `m` items before
the boundary were started (no further `issue_started` events), and the
processed/failed counters hold exactly the values the uncancelled run of
those first `m` items accumulates. -/
theorem batch_cancellation_prompt (issues : List BatchItem)
    (cancelAt : Nat → Bool) (m : Nat) (hm : m < issues.length)
    (ht : cancelAt m = true) (hf : ∀ j, j < m → cancelAt j = false) :
    (run_batch_analysis (.ok issues) cancelAt).job.status = .cancelled ∧
    countStarted (run_batch_analysis (.ok issues) cancelAt).events = m ∧
    (run_batch_analysis (.ok issues) cancelAt).job.processed_issues =
      (run_batch_analysis (.ok (issues.take m))
        (fun _ => false)).job.processed_issues ∧
    (run_batch_analysis (.ok issues) cancelAt).job.failed_issues =
      (run_batch_analysis (.ok (issues.take m))
        (fun _ => false)).job.failed_issues := by
  have hsplit := processItems_cancel_split cancelAt issues.length m issues 0
    ⟨{ initialJob with
        status := JobStatus.running
        total_issues := issues.length }, [], [.job_started issues.length]⟩
    hm (by simpa using ht) (fun j hj => by simpa using hf j hj)
  have htake : (issues.take m).length = m := by
    rw [List.length_take]
    omega
  have hcnt := processItems_counts_no_cancel (fun _ => false) issues.length
    (fun _ => rfl) (issues.take m) 0
    ⟨{ initialJob with
        status := JobStatus.running
        total_issues := issues.length }, [], [.job_started issues.length]⟩
  have hstPre := processItems_status_no_cancel (fun _ => false)
    (issues.take m).length (fun _ => rfl) (issues.take m) 0
    ⟨{ initialJob with
        status := JobStatus.running
        total_issues := (issues.take m).length }, [],
      [.job_started (issues.take m).length]⟩
  have hcounters := processItems_counters_only (fun _ => false) (issues.take m)
    0 issues.length (issues.take m).length
    ⟨{ initialJob with
        status := JobStatus.running
        total_issues := issues.length }, [], [.job_started issues.length]⟩
    ⟨{ initialJob with
        status := JobStatus.running
        total_issues := (issues.take m).length }, [],
      [.job_started (issues.take m).length]⟩ rfl rfl
  simp only [run_batch_analysis]
  rw [hsplit]
  rw [if_pos rfl]
  rw [if_neg (by rw [hstPre]; simp)]
  refine ⟨rfl, ?_, ?_, ?_⟩
  · simp only [countStarted, List.filter_append]
    have h2 := hcnt.2
    simp only [countStarted] at h2
    simp [Event.isStarted, h2, htake]
  · simpa using hcounters.1
  · simpa using hcounters.2

/-- C5, witness: three healthy items with cancellation observed at
boundary 1: the job ends `cancelled`, only the first item was started,
and the counters hold the one processed item and zero failures. -/
theorem batch_cancellation_prompt_witness :
    (run_batch_analysis (.ok [⟨"K-1", .ok 80⟩, ⟨"K-2", .ok 70⟩, ⟨"K-3", .ok 60⟩])
        (fun i => decide (1 ≤ i))).job.status = .cancelled ∧
    countStarted (run_batch_analysis
        (.ok [⟨"K-1", .ok 80⟩, ⟨"K-2", .ok 70⟩, ⟨"K-3", .ok 60⟩])
        (fun i => decide (1 ≤ i))).events = 1 ∧
    (run_batch_analysis (.ok [⟨"K-1", .ok 80⟩, ⟨"K-2", .ok 70⟩, ⟨"K-3", .ok 60⟩])
        (fun i => decide (1 ≤ i))).job.processed_issues = 1 ∧
    (run_batch_analysis (.ok [⟨"K-1", .ok 80⟩, ⟨"K-2", .ok 70⟩, ⟨"K-3", .ok 60⟩])
        (fun i => decide (1 ≤ i))).job.failed_issues = 0 := by
  have h := batch_cancellation_prompt
    [⟨"K-1", .ok 80⟩, ⟨"K-2", .ok 70⟩, ⟨"K-3", .ok 60⟩]
    (fun i => decide (1 ≤ i)) 1 (by decide) (by decide)
    (by
      intro j hj
      have : j = 0 := by omega
      subst this
      rfl)
  exact ⟨h.1, h.2.1, h.2.2.1.trans (by decide), h.2.2.2.trans (by decide)⟩

/-- C8, counterexample. The claim says `current_item_key` is cleared on
every terminal transition; on the cancellation path the early return
leaves it holding the last started item's key. Two healthy items with
cancellation observed at boundary 1: the job ends `cancelled` with
`current_issue_key` still `"K-1"`, not null. -/
theorem current_item_key_counterexample :
    (run_batch_analysis (.ok [⟨"K-1", .ok 80⟩, ⟨"K-2", .ok 80⟩])
        (fun i => decide (i = 1))).job.status = .cancelled ∧
    (run_batch_analysis (.ok [⟨"K-1", .ok 80⟩, ⟨"K-2", .ok 80⟩])
        (fun i => decide (i = 1))).job.current_issue_key = some "K-1" := by
  exact ⟨by decide, by decide⟩

/-- C8, amended: `current_item_key` is set to each item's key as it is
scored; it is cleared to null on the `completed` transition, and on the
search-failure `failed` transition it was never set; but the `cancelled`
return path does not clear it. -/
theorem current_item_key_cleared_amended :
    (∀ (issues : List BatchItem) (cancelAt : Nat → Bool),
      (run_batch_analysis (.ok issues) cancelAt).job.status = .completed →
      (run_batch_analysis (.ok issues) cancelAt).job.current_issue_key = none) ∧
    (∀ (e : String) (cancelAt : Nat → Bool),
      (run_batch_analysis (.error e) cancelAt).job.current_issue_key = none) := by
  constructor
  · intro issues cancelAt
    simp only [run_batch_analysis]
    split
    · rename_i hcond
      intro h
      rw [hcond] at h
      exact JobStatus.noConfusion h
    · intro _
      rfl
  · intro e cancelAt
    rfl

/-- C8, witness for the amended theorem: a completed one-item run has a
null `current_issue_key`, as does a run whose search failed. -/
theorem current_item_key_cleared_amended_witness :
    (run_batch_analysis (.ok [⟨"K-1", .ok 80⟩])
        (fun _ => false)).job.current_issue_key = none ∧
    (run_batch_analysis (.error "down")
        (fun _ => false)).job.current_issue_key = none :=
  ⟨current_item_key_cleared_amended.1 [⟨"K-1", .ok 80⟩] (fun _ => false)
      (by decide),
    current_item_key_cleared_amended.2 "down" (fun _ => false)⟩

/-! ## WebSocket fan-out (`backend/api/websocket/manager.py`)

Connections are identified by naturals. Python's `set` of connections is
modelled as a list without duplicates in insertion order (the claims are
insensitive to iteration order); a dict key holding an empty set is
indistinguishable from a deleted key because every read goes through
`.get(key, set())`, so the indices are plain functions into lists. What
the transport does for a connection is a parameter `st`: `active` — the
client state is CONNECTED and `send_text` succeeds; `raising` — CONNECTED
but `send_text` raises; `notConnected` — `client_state` is no longer
CONNECTED, so the send is skipped. Broadcasts return the list of
connections the event was delivered to (the source returns its length as
`sent_count`).
-/

inductive ConnState
  | active
  | raising
  | notConnected
deriving DecidableEq

/-- Python `set.add` on a set held as a duplicate-free list. -/
def setAdd (ws : Nat) (l : List Nat) : List Nat :=
  if ws ∈ l then l else l ++ [ws]

structure ConnectionManager where
  job_connections : String → List Nat
  user_connections : Nat → List Nat
  connection_info : Nat → Option (Nat × Option String)

/-- A fresh `ConnectionManager()`: empty indices. -/
def emptyManager : ConnectionManager :=
  ⟨fun _ => [], fun _ => [], fun _ => none⟩

/-- The cleanup `ConnectionManager.disconnect`: drop the connection from its user's
set, from its subscribed job's set (if any), and from the info map; a
connection with no info entry is ignored. -/
def disconnect (m : ConnectionManager) (ws : Nat) : ConnectionManager :=
  match m.connection_info ws with
  | none => m
  | some (user_id, job_id) =>
      { user_connections :=
          Function.update m.user_connections user_id
            ((m.user_connections user_id).erase ws)
        job_connections :=
          match job_id with
          | some j => Function.update m.job_connections j
              ((m.job_connections j).erase ws)
          | none => m.job_connections
        connection_info := Function.update m.connection_info ws none }

/-- The sender `ConnectionManager.send_personal`: send if the client state is
CONNECTED, returning whether delivery succeeded; a raise during the send
disconnects the connection; a non-CONNECTED client is skipped. The
exception is swallowed either way. -/
def send_personal (st : Nat → ConnState) (m : ConnectionManager) (ws : Nat) :
    ConnectionManager × Bool :=
  match st ws with
  | .active => (m, true)
  | .raising => (disconnect m ws, false)
  | .notConnected => (m, false)

/-- The broadcast loop body shared by `broadcast_to_job` and
`broadcast_to_user`: iterate over the snapshot copied under the lock,
accumulating the connections delivered to. -/
def deliverAll (st : Nat → ConnState) :
    List Nat → ConnectionManager → List Nat → ConnectionManager × List Nat
  | [], m, delivered => (m, delivered)
  | ws :: rest, m, delivered =>
      let r := send_personal st m ws
      deliverAll st rest r.1 (if r.2 then delivered ++ [ws] else delivered)

/-- The fan-out `ConnectionManager.broadcast_to_job`. -/
def broadcast_to_job (st : Nat → ConnState) (m : ConnectionManager)
    (job_id : String) : ConnectionManager × List Nat :=
  deliverAll st (m.job_connections job_id) m []

/-- The fan-out `ConnectionManager.broadcast_to_user`. -/
def broadcast_to_user (st : Nat → ConnState) (m : ConnectionManager)
    (user_id : Nat) : ConnectionManager × List Nat :=
  deliverAll st (m.user_connections user_id) m []

/-- The registration `ConnectionManager.connect`: register the connection in its user's
set unconditionally, in the job's set when a `job_id` filter was given,
record the info entry, then send the CONNECTED greeting through
`send_personal`. -/
def connect (st : Nat → ConnState) (m : ConnectionManager)
    (ws user_id : Nat) (job_id : Option String) : ConnectionManager :=
  let m3 : ConnectionManager :=
    { user_connections :=
        Function.update m.user_connections user_id
          (setAdd ws (m.user_connections user_id))
      job_connections :=
        match job_id with
        | some j => Function.update m.job_connections j
            (setAdd ws (m.job_connections j))
        | none => m.job_connections
      connection_info :=
        Function.update m.connection_info ws (some (user_id, job_id)) }
  (send_personal st m3 ws).1

/-- The shape shared by the job-lifecycle `emit_*` helpers
(`emit_job_started`, `emit_job_progress`, `emit_job_completed`,
`emit_job_failed`): broadcast the event to the job's subscribers, then to
the user's connections. The payload plays no role in delivery and is
elided. -/
def emit_job_event (st : Nat → ConnState) (m : ConnectionManager)
    (job_id : String) (user_id : Nat) : ConnectionManager × List Nat :=
  let r1 := broadcast_to_job st m job_id
  let r2 := broadcast_to_user st r1.1 user_id
  (r2.1, r1.2 ++ r2.2)

/-- With every connection healthy, a broadcast changes nothing and
delivers to the whole snapshot in order. -/
theorem deliverAll_all_active (st : Nat → ConnState)
    (hact : ∀ c, st c = .active) :
    ∀ (l : List Nat) (m : ConnectionManager) (acc : List Nat),
      deliverAll st l m acc = (m, acc ++ l) := by
  intro l
  induction l with
  | nil => intro m acc; simp [deliverAll]
  | cons ws rest ih =>
    intro m acc
    simp only [deliverAll, send_personal, hact ws]
    rw [ih]
    simp

/-- C6: job-publish reach. With every connection healthy, a job-lifecycle
emission for `(job_id, user_id)` — the helpers broadcast to the job's
subscribers and then to the owner's connections — reaches every
connection subscribed to the job and every connection of the owner, in
particular every owner connection with no job filter. -/
theorem publish_to_job_reach (st : Nat → ConnState) (m : ConnectionManager)
    (job_id : String) (user_id ws : Nat)
    (hact : ∀ c, st c = ConnState.active)
    (hmem : ws ∈ m.job_connections job_id ∨ ws ∈ m.user_connections user_id) :
    ws ∈ (emit_job_event st m job_id user_id).2 := by
  simp only [emit_job_event, broadcast_to_job, broadcast_to_user]
  rw [deliverAll_all_active st hact, deliverAll_all_active st hact]
  simpa using hmem

/-- C6, witness: connections 1 and 2 subscribed to job `"J1"`, connection
3 owner-wide for user 100 (J1's owner); a publish for J1 reaches all
three. -/
theorem publish_to_job_reach_witness :
    1 ∈ (emit_job_event (fun _ => ConnState.active)
        (connect (fun _ => ConnState.active)
          (connect (fun _ => ConnState.active)
            (connect (fun _ => ConnState.active) emptyManager 1 100 (some "J1"))
            2 100 (some "J1"))
          3 100 none) "J1" 100).2 ∧
    2 ∈ (emit_job_event (fun _ => ConnState.active)
        (connect (fun _ => ConnState.active)
          (connect (fun _ => ConnState.active)
            (connect (fun _ => ConnState.active) emptyManager 1 100 (some "J1"))
            2 100 (some "J1"))
          3 100 none) "J1" 100).2 ∧
    3 ∈ (emit_job_event (fun _ => ConnState.active)
        (connect (fun _ => ConnState.active)
          (connect (fun _ => ConnState.active)
            (connect (fun _ => ConnState.active) emptyManager 1 100 (some "J1"))
            2 100 (some "J1"))
          3 100 none) "J1" 100).2 :=
  ⟨publish_to_job_reach _ _ "J1" 100 1 (fun _ => rfl) (Or.inl (by decide)),
    publish_to_job_reach _ _ "J1" 100 2 (fun _ => rfl) (Or.inl (by decide)),
    publish_to_job_reach _ _ "J1" 100 3 (fun _ => rfl) (Or.inr (by decide))⟩

/-- Adding to a duplicate-free list leaves exactly one copy. -/
theorem count_setAdd_self (ws : Nat) (l : List Nat) (h : l.Nodup) :
    (setAdd ws l).count ws = 1 := by
  unfold setAdd
  by_cases hm : ws ∈ l
  · rw [if_pos hm]
    exact List.count_eq_one_of_mem h hm
  · rw [if_neg hm, List.count_append, List.count_eq_zero_of_not_mem hm]
    simp

/-- C9: double delivery. `connect` registers a job-filtered connection in
both the job index and the owner index, and a job-lifecycle emission
broadcasts to the job index and then the owner index, so a healthy
connection subscribed with a `job_id` receives the same event exactly
twice in a single emission. -/
theorem job_subscriber_double_delivery (st : Nat → ConnState)
    (m : ConnectionManager) (ws user_id : Nat) (j : String)
    (hact : ∀ c, st c = ConnState.active)
    (hnj : (m.job_connections j).Nodup)
    (hnu : (m.user_connections user_id).Nodup) :
    ((emit_job_event st (connect st m ws user_id (some j)) j user_id).2).count
      ws = 2 := by
  simp only [connect, send_personal, hact ws]
  simp only [emit_job_event, broadcast_to_job, broadcast_to_user]
  rw [deliverAll_all_active st hact, deliverAll_all_active st hact]
  simp only [List.nil_append, List.count_append]
  rw [Function.update_same, Function.update_same]
  rw [count_setAdd_self ws _ hnj, count_setAdd_self ws _ hnu]

/-- C9, witness: a fresh connection subscribed to `"J1"` for its owner
receives one job emission exactly twice. -/
theorem job_subscriber_double_delivery_witness :
    ((emit_job_event (fun _ => ConnState.active)
        (connect (fun _ => ConnState.active) emptyManager 7 1 (some "J1"))
        "J1" 1).2).count 7 = 2 :=
  job_subscriber_double_delivery (fun _ => ConnState.active) emptyManager 7 1
    "J1" (fun _ => rfl) List.nodup_nil List.nodup_nil

/-- The connection is gone from every index structure relevant to its
registration `(user_id, jf)`: the info map, its owner's set, and its
subscribed job's set. -/
def removedFrom (m : ConnectionManager) (ws user_id : Nat)
    (jf : Option String) : Prop :=
  m.connection_info ws = none ∧
  ws ∉ m.user_connections user_id ∧
  ∀ j, jf = some j → ws ∉ m.job_connections j

/-- Every index set is duplicate-free, as Python sets are. -/
def WF (m : ConnectionManager) : Prop :=
  (∀ jid, (m.job_connections jid).Nodup) ∧
  (∀ u, (m.user_connections u).Nodup)

/-- One send step never re-registers a removed connection. -/
theorem step_preserves_removed (st : Nat → ConnState) (ws user_id : Nat)
    (jf : Option String) (m : ConnectionManager) (c : Nat)
    (h : removedFrom m ws user_id jf) :
    removedFrom ((send_personal st m c).1) ws user_id jf := by
  obtain ⟨h1, h2, h3⟩ := h
  cases hst : st c <;> simp only [send_personal, hst]
  · exact ⟨h1, h2, h3⟩
  · cases hc : m.connection_info c with
    | none =>
      simp only [disconnect, hc]
      exact ⟨h1, h2, h3⟩
    | some p =>
      obtain ⟨u2, j2⟩ := p
      have hcw : c ≠ ws := by
        intro he
        rw [he, h1] at hc
        exact Option.noConfusion hc
      simp only [disconnect, hc]
      refine ⟨?_, ?_, ?_⟩
      · show Function.update m.connection_info c none ws = none
        rw [Function.update_noteq (Ne.symm hcw)]
        exact h1
      · show ws ∉ Function.update m.user_connections u2
          ((m.user_connections u2).erase c) user_id
        by_cases hu : user_id = u2
        · subst hu
          rw [Function.update_same]
          exact fun hx => h2 (List.mem_of_mem_erase hx)
        · rw [Function.update_noteq hu]
          exact h2
      · intro j hj
        cases j2 with
        | none => exact h3 j hj
        | some jj =>
          show ws ∉ Function.update m.job_connections jj
            ((m.job_connections jj).erase c) j
          by_cases hjx : j = jj
          · subst hjx
            rw [Function.update_same]
            exact fun hx => h3 j hj (List.mem_of_mem_erase hx)
          · rw [Function.update_noteq hjx]
            exact h3 j hj
  · exact ⟨h1, h2, h3⟩

/-- A whole broadcast never re-registers a removed connection. -/
theorem deliverAll_preserves_removed (st : Nat → ConnState)
    (ws user_id : Nat) (jf : Option String) :
    ∀ (l : List Nat) (m : ConnectionManager) (acc : List Nat),
      removedFrom m ws user_id jf →
      removedFrom ((deliverAll st l m acc).1) ws user_id jf := by
  intro l
  induction l with
  | nil => intro m acc h; exact h
  | cons c rest ih =>
    intro m acc h
    simp only [deliverAll]
    exact ih _ _ (step_preserves_removed st ws user_id jf m c h)

/-- One send step keeps every index set duplicate-free. -/
theorem WF_step (st : Nat → ConnState) (m : ConnectionManager) (c : Nat)
    (h : WF m) : WF ((send_personal st m c).1) := by
  cases hst : st c <;> simp only [send_personal, hst]
  · exact h
  · cases hc : m.connection_info c with
    | none =>
      simp only [disconnect, hc]
      exact h
    | some p =>
      obtain ⟨u2, j2⟩ := p
      simp only [disconnect, hc]
      constructor
      · intro jid
        cases j2 with
        | none => exact h.1 jid
        | some jj =>
          show (Function.update m.job_connections jj
            ((m.job_connections jj).erase c) jid).Nodup
          by_cases hjx : jid = jj
          · subst hjx
            rw [Function.update_same]
            exact (h.1 jid).erase c
          · rw [Function.update_noteq hjx]
            exact h.1 jid
      · intro u
        show (Function.update m.user_connections u2
          ((m.user_connections u2).erase c) u).Nodup
        by_cases hu : u = u2
        · subst hu
          rw [Function.update_same]
          exact (h.2 u).erase c
        · rw [Function.update_noteq hu]
          exact h.2 u
  · exact h

/-- A send step on another connection leaves this one's info entry
alone. -/
theorem step_preserves_info (st : Nat → ConnState) (m : ConnectionManager)
    (c ws : Nat) (hne : c ≠ ws) :
    ((send_personal st m c).1).connection_info ws = m.connection_info ws := by
  cases hst : st c <;> simp only [send_personal, hst]
  · cases hc : m.connection_info c with
    | none => simp only [disconnect, hc]
    | some p =>
      obtain ⟨u2, j2⟩ := p
      simp only [disconnect, hc]
      show Function.update m.connection_info c none ws = _
      exact Function.update_noteq (Ne.symm hne) _ _

/-- Disconnecting a registered connection removes it from every index
structure. -/
theorem disconnect_self_removed (m : ConnectionManager) (ws user_id : Nat)
    (jf : Option String) (hWF : WF m)
    (hinfo : m.connection_info ws = some (user_id, jf)) :
    removedFrom (disconnect m ws) ws user_id jf := by
  simp only [disconnect, hinfo]
  refine ⟨?_, ?_, ?_⟩
  · show Function.update m.connection_info ws none ws = none
    exact Function.update_same _ _ _
  · show ws ∉ Function.update m.user_connections user_id
      ((m.user_connections user_id).erase ws) user_id
    rw [Function.update_same]
    exact (hWF.2 user_id).not_mem_erase
  · intro j hj
    subst hj
    show ws ∉ Function.update m.job_connections j
      ((m.job_connections j).erase ws) j
    rw [Function.update_same]
    exact (hWF.1 j).not_mem_erase

/-- Connections already delivered to stay delivered to. -/
theorem deliverAll_acc_mono (st : Nat → ConnState) :
    ∀ (l : List Nat) (m : ConnectionManager) (acc : List Nat) (a : Nat),
      a ∈ acc → a ∈ (deliverAll st l m acc).2 := by
  intro l
  induction l with
  | nil => intro m acc a h; exact h
  | cons c rest ih =>
    intro m acc a h
    simp only [deliverAll]
    by_cases hs : (send_personal st m c).2 = true
    · rw [if_pos hs]
      exact ih _ _ a (List.mem_append_left _ h)
    · rw [if_neg hs]
      exact ih _ _ a h

/-- Every healthy connection in the snapshot is delivered to. -/
theorem deliverAll_active_mem (st : Nat → ConnState) :
    ∀ (l : List Nat) (m : ConnectionManager) (acc : List Nat) (c : Nat),
      c ∈ l → st c = ConnState.active → c ∈ (deliverAll st l m acc).2 := by
  intro l
  induction l with
  | nil => intro m acc c h; exact absurd h (List.not_mem_nil c)
  | cons a rest ih =>
    intro m acc c hmem hact
    simp only [deliverAll]
    rcases List.mem_cons.mp hmem with rfl | hrest
    · have hs : (send_personal st m c).2 = true := by
        simp only [send_personal, hact]
      rw [if_pos hs]
      exact deliverAll_acc_mono st rest _ _ c
        (List.mem_append_right _ (List.mem_singleton.mpr rfl))
    · exact ih _ _ c hrest hact

/-- Delivery succeeds only to healthy connections. -/
theorem deliverAll_delivered_origin (st : Nat → ConnState) :
    ∀ (l : List Nat) (m : ConnectionManager) (acc : List Nat) (a : Nat),
      a ∈ (deliverAll st l m acc).2 → a ∈ acc ∨ st a = ConnState.active := by
  intro l
  induction l with
  | nil => intro m acc a h; exact Or.inl h
  | cons c rest ih =>
    intro m acc a h
    simp only [deliverAll] at h
    by_cases hs : (send_personal st m c).2 = true
    · rw [if_pos hs] at h
      rcases ih _ _ a h with hacc | hact
      · rcases List.mem_append.mp hacc with hacc | hc
        · exact Or.inl hacc
        · right
          rw [List.mem_singleton.mp hc]
          cases hst : st c
          · rfl
          · simp only [send_personal, hst] at hs
            exact Bool.noConfusion hs
          · simp only [send_personal, hst] at hs
            exact Bool.noConfusion hs
      · exact Or.inr hact
    · rw [if_neg hs] at h
      exact ih _ _ a h

/-- A raising connection in the snapshot ends the broadcast fully
deregistered. -/
theorem deliverAll_removes_raising (st : Nat → ConnState)
    (ws user_id : Nat) (jf : Option String)
    (hraise : st ws = ConnState.raising) :
    ∀ (l : List Nat) (m : ConnectionManager) (acc : List Nat),
      ws ∈ l → WF m →
      (m.connection_info ws = some (user_id, jf) ∨
        removedFrom m ws user_id jf) →
      removedFrom ((deliverAll st l m acc).1) ws user_id jf := by
  intro l
  induction l with
  | nil => intro m acc h; exact absurd h (List.not_mem_nil ws)
  | cons c rest ih =>
    intro m acc hmem hWF hdisj
    simp only [deliverAll]
    by_cases hcw : c = ws
    · rw [hcw]
      have hstep : removedFrom ((send_personal st m ws).1) ws user_id jf := by
        rcases hdisj with hP | hR
        · simp only [send_personal, hraise]
          exact disconnect_self_removed m ws user_id jf hWF hP
        · exact step_preserves_removed st ws user_id jf m ws hR
      exact deliverAll_preserves_removed st ws user_id jf rest _ _ hstep
    · have hrest : ws ∈ rest := by
        rcases List.mem_cons.mp hmem with he | hr
        · exact absurd he.symm hcw
        · exact hr
      refine ih _ _ hrest (WF_step st m c hWF) ?_
      rcases hdisj with hP | hR
      · exact Or.inl ((step_preserves_info st m c ws hcw).trans hP)
      · exact Or.inr (step_preserves_removed st ws user_id jf m c hR)

/-- C7, counterexample. The claim says a send that fails for a connection
removes it from all index structures during the broadcast. A connection
whose client state is no longer CONNECTED fails delivery (`send_personal`
returns `False` without sending) yet `send_personal` only disconnects on
a raised exception, so the stale connection stays registered everywhere:
after broadcasting to its job, nothing was delivered and the connection
is still in the job index, the owner index, and the info map. -/
theorem failed_send_not_removed_counterexample :
    (broadcast_to_job (fun _ => ConnState.notConnected)
        (connect (fun _ => ConnState.notConnected) emptyManager 5 1
          (some "J1")) "J1").2 = [] ∧
    5 ∈ (broadcast_to_job (fun _ => ConnState.notConnected)
        (connect (fun _ => ConnState.notConnected) emptyManager 5 1
          (some "J1")) "J1").1.job_connections "J1" ∧
    5 ∈ (broadcast_to_job (fun _ => ConnState.notConnected)
        (connect (fun _ => ConnState.notConnected) emptyManager 5 1
          (some "J1")) "J1").1.user_connections 1 ∧
    (broadcast_to_job (fun _ => ConnState.notConnected)
        (connect (fun _ => ConnState.notConnected) emptyManager 5 1
          (some "J1")) "J1").1.connection_info 5 = some (1, some "J1") := by
  exact ⟨by decide, by decide, by decide, by decide⟩

/-- C7, amended: during a single broadcast, a send that fails by raising
removes that connection from the job index, the owner index and the info
map; a connection found in a non-CONNECTED state merely fails delivery
and stays registered; delivery still proceeds to every healthy connection
in the same call; and no failure propagates (the broadcast is a total
function whose send step swallows the exception). -/
theorem broadcast_self_healing (st : Nat → ConnState)
    (m : ConnectionManager) (job_id : String) (ws user_id : Nat)
    (jf : Option String) (hraise : st ws = ConnState.raising) (hWF : WF m)
    (hinfo : m.connection_info ws = some (user_id, jf))
    (hmem : ws ∈ m.job_connections job_id) :
    removedFrom (broadcast_to_job st m job_id).1 ws user_id jf ∧
    (∀ c, c ∈ m.job_connections job_id → st c = ConnState.active →
      c ∈ (broadcast_to_job st m job_id).2) ∧
    ws ∉ (broadcast_to_job st m job_id).2 := by
  refine ⟨?_, ?_, ?_⟩
  · exact deliverAll_removes_raising st ws user_id jf hraise
      (m.job_connections job_id) m [] hmem hWF (Or.inl hinfo)
  · intro c hc hact
    exact deliverAll_active_mem st (m.job_connections job_id) m [] c hc hact
  · intro hws
    rcases deliverAll_delivered_origin st (m.job_connections job_id) m [] ws
        hws with hacc | hact
    · exact absurd hacc (List.not_mem_nil ws)
    · rw [hraise] at hact
      exact ConnState.noConfusion hact

/-- C7, witness for the amended theorem: connections 5 and 6 are
registered to job `"J1"` for user 1; connection 5 raises on send.
Broadcasting to the job deregisters 5 from the info map, the owner index
and the job index, still delivers to 6, and delivers nothing to 5. -/
theorem broadcast_self_healing_witness :
    removedFrom (broadcast_to_job (fun c => if c = 5 then ConnState.raising
        else ConnState.active)
      ⟨fun j => if j = "J1" then [5, 6] else [],
        fun u => if u = 1 then [5, 6] else [],
        fun c => if c = 5 then some (1, some "J1")
          else if c = 6 then some (1, some "J1") else none⟩ "J1").1 5 1
      (some "J1") ∧
    6 ∈ (broadcast_to_job (fun c => if c = 5 then ConnState.raising
        else ConnState.active)
      ⟨fun j => if j = "J1" then [5, 6] else [],
        fun u => if u = 1 then [5, 6] else [],
        fun c => if c = 5 then some (1, some "J1")
          else if c = 6 then some (1, some "J1") else none⟩ "J1").2 ∧
    5 ∉ (broadcast_to_job (fun c => if c = 5 then ConnState.raising
        else ConnState.active)
      ⟨fun j => if j = "J1" then [5, 6] else [],
        fun u => if u = 1 then [5, 6] else [],
        fun c => if c = 5 then some (1, some "J1")
          else if c = 6 then some (1, some "J1") else none⟩ "J1").2 := by
  have h := broadcast_self_healing
    (fun c => if c = 5 then ConnState.raising else ConnState.active)
    ⟨fun j => if j = "J1" then [5, 6] else [],
      fun u => if u = 1 then [5, 6] else [],
      fun c => if c = 5 then some (1, some "J1")
        else if c = 6 then some (1, some "J1") else none⟩ "J1" 5 1
    (some "J1") rfl
    (by
      constructor
      · intro jid
        show (if jid = "J1" then [5, 6] else []).Nodup
        split <;> decide
      · intro u
        show (if u = 1 then [5, 6] else []).Nodup
        split <;> decide)
    rfl (by decide)
  exact ⟨h.1, h.2.1 6 (by decide) rfl, h.2.2⟩

end JiraLab
